import Mathlib

/-!
Verification of the ledger-replay / asset-curve core of the open-alpha-arena
backend.  The definitions below are a shallow embedding of the Python source:

* `cashChangeAt`, `positionsAt`, `positionsValueAt`, `timelinePoint`,
  `createAccountTimeline` embed the per-timestamp replay loop of
  `services/asset_curve_calculator._create_account_timeline` (the same loop is
  inlined verbatim in `api/ws.get_all_asset_curves_data` and
  `api/account_routes.get_asset_curve_by_timeframe`).
* `bodyCurvesNew` / `getAllAssetCurvesDataNew` embed
  `services/asset_curve_calculator.get_all_asset_curves_data_new`, whose
  top-level try/except converts every failure into an empty list.
* `bodyCurvesWs` / `getAllAssetCurvesDataWs` embed `api/ws.get_all_asset_curves_data`.
* `getAssetCurveByTimeframe` embeds
  `api/account_routes.get_asset_curve_by_timeframe` (which raises an HTTP 500
  when no kline data is available).
* `routeCashChangesUpToDate`, `positionsOnDate`, `positionsValueOnDate`,
  `latestPriceAtOrBefore`, `getAssetCurve` embed the calendar-curve path of
  `api/account_routes` (`_calculate_cash_changes_up_to_date`,
  `_calculate_positions_value_on_date`, `get_asset_curve`).
* `wsCashChangesUpToDate` embeds `api/ws._calculate_cash_changes_up_to_date`,
  the one copy that subtracts the commission on SELL.
* `calcPositionsValue` and `snapshotTotalAssets` embed
  `services/asset_calculator.calc_positions_value` and the overview assembled
  by `api/ws._send_snapshot`.

Monetary amounts are embedded as rationals; timestamps as integers (seconds),
with `dateOfTime` standing for taking the UTC calendar date of a timestamp.
Database reads are inputs; reads that can raise are `Except`-valued.
-/

namespace Arena

/-- A trade row: immutable fill record, mirroring `database.models.Trade`. -/
structure Trade where
  symbol : String
  market : String
  side : String
  price : ℚ
  quantity : ℚ
  commission : ℚ
  tradeTime : ℤ
deriving Repr, DecidableEq

/-- Number of seconds in a day, used to map a timestamp to its calendar date. -/
def secondsPerDay : ℤ := 86400

/-- Calendar date (as a day index) of a timestamp, embedding `func.date(trade_time)`. -/
def dateOfTime (t : ℤ) : ℤ := t / secondsPerDay

/-- `price * quantity + commission`, the `trade_amount` local of the replay loops. -/
def tradeAmount (t : Trade) : ℚ := t.price * t.quantity + t.commission

/-- Signed cash impact used by `_create_account_timeline` and the timeframe loops:
BUY subtracts `price*qty + commission`, SELL *adds* `price*qty + commission`. -/
def cashImpact (t : Trade) : ℚ :=
  if t.side = "BUY" then -tradeAmount t else tradeAmount t

/-- Signed quantity impact: BUY adds the quantity, SELL subtracts it. -/
def qtyImpact (t : Trade) : ℚ :=
  if t.side = "BUY" then t.quantity else -t.quantity

/-- The `cash_change` accumulated by the replay loop over all trades with
`trade_time <= cutoff` (loop body of `_create_account_timeline`). -/
def cashChangeAt (trades : List Trade) (cutoff : ℤ) : ℚ :=
  trades.foldl (fun acc t => if t.tradeTime ≤ cutoff then acc + cashImpact t else acc) 0

/-- Key of the `position_quantities` dict: `(symbol, market)`. -/
abbrev SymKey := String × String

/-- In-place update of a Python dict rendered as an insertion-ordered
association list: `d.setdefault(key, 0); d[key] += delta`. -/
def assocUpdate (m : List (SymKey × ℚ)) (key : SymKey) (d : ℚ) : List (SymKey × ℚ) :=
  match m with
  | [] => [(key, d)]
  | (k, v) :: rest =>
    if k = key then (k, v + d) :: rest else (k, v) :: assocUpdate rest key d

/-- Dict lookup with default 0 (the quantity a dict reports for an absent key
once the replay is read as a map into quantities). -/
def assocGet (m : List (SymKey × ℚ)) (key : SymKey) : ℚ :=
  match m with
  | [] => 0
  | (k, v) :: rest => if k = key then v else assocGet rest key

/-- The `position_quantities` dict built by the replay loop over all trades
with `trade_time <= cutoff`. -/
def positionsAt (trades : List Trade) (cutoff : ℤ) : List (SymKey × ℚ) :=
  trades.foldl
    (fun m t =>
      if t.tradeTime ≤ cutoff then assocUpdate m (t.symbol, t.market) (qtyImpact t) else m)
    []

/-- Net signed quantity of a key over the trades at or before the cutoff,
written as a direct sum (the specification-level reading of the dict). -/
def netQtyAt (trades : List Trade) (cutoff : ℤ) (key : SymKey) : ℚ :=
  ((trades.filter (fun t => decide (t.tradeTime ≤ cutoff))).map
    (fun t => if (t.symbol, t.market) = key then qtyImpact t else 0)).sum

/-- One kline bar as consumed by the curve code: a timestamp and a `close`
field that may be absent/None (embedded as `none`). -/
structure KlineBar where
  timestamp : ℤ
  close : Option ℚ
deriving Repr, DecidableEq

/-- Python truthiness of the `close` field: `None` and `0.0` are falsy. -/
def truthyClose : Option ℚ → Bool
  | none => false
  | some p => decide (p ≠ 0)

/-- The `symbol_klines` dict: insertion-ordered `(symbol, market) -> klines`. -/
abbrev KlineMap := List (SymKey × List KlineBar)

/-- Membership test / lookup in `symbol_klines`. -/
def lookupKlines (sk : KlineMap) (key : SymKey) : Option (List KlineBar) :=
  match sk with
  | [] => none
  | (k, ks) :: rest => if k = key then some ks else lookupKlines rest key

/-- Value added to `positions_value` for one dict entry at timestamp index `i`:
`quantity > 0 and key in symbol_klines and i < len(klines) and klines[i]['close']`
guards the addition of `close * quantity`; otherwise the entry adds nothing. -/
def klineContribution (sk : KlineMap) (i : ℕ) (key : SymKey) (q : ℚ) : ℚ :=
  if 0 < q then
    match lookupKlines sk key with
    | some ks =>
      match ks.get? i with
      | some bar => if truthyClose bar.close then bar.close.getD 0 * q else 0
      | none => 0
    | none => 0
  else 0

/-- The `positions_value` accumulation loop of the timeframe replay. -/
def positionsValueAt (posQ : List (SymKey × ℚ)) (sk : KlineMap) (i : ℕ) : ℚ :=
  posQ.foldl (fun acc e => acc + klineContribution sk i e.1 e.2) 0

/-- The account fields the curve code reads (`database.models.Account`; for the
route variants keyed on users, the corresponding `User` balance fields). -/
structure AccountRec where
  id : ℕ
  userId : ℕ
  name : String
  initialCapital : ℚ
  currentCash : ℚ
deriving Repr, DecidableEq

/-- One emitted timeframe-curve data point (timestamp, cash, positions value,
total assets); string passthrough fields are omitted. -/
structure CurvePoint where
  timestamp : ℤ
  accountId : ℕ
  totalAssets : ℚ
  cash : ℚ
  positionsValue : ℚ
deriving Repr, DecidableEq

/-- The body of the per-timestamp iteration of `_create_account_timeline`:
replay up to `ts`, then value the positive positions at kline index `i`. -/
def timelinePoint (a : AccountRec) (trades : List Trade) (sk : KlineMap)
    (i : ℕ) (ts : ℤ) : CurvePoint :=
  let cashChange := cashChangeAt trades ts
  let posQ := positionsAt trades ts
  let currentCash := a.initialCapital + cashChange
  let pv := positionsValueAt posQ sk i
  { timestamp := ts, accountId := a.id, totalAssets := currentCash + pv,
    cash := currentCash, positionsValue := pv }

/-- Point emitted for an account with no trades at a timeline timestamp. -/
def noTradePoint (a : AccountRec) (ts : ℤ) : CurvePoint :=
  { timestamp := ts, accountId := a.id, totalAssets := a.initialCapital,
    cash := a.initialCapital, positionsValue := 0 }

/-- `_create_account_timeline`: the per-account timeline over the shared
timestamp axis. -/
def createAccountTimeline (a : AccountRec) (trades : List Trade)
    (timestamps : List ℤ) (sk : KlineMap) : List CurvePoint :=
  if trades.isEmpty then timestamps.map (noTradePoint a)
  else timestamps.enum.map (fun p => timelinePoint a trades sk p.1 p.2)

/-- Inputs the batch curve functions read from storage and market data.
`accountsE`, `symbolsE` and `tradesOfE` are the database reads (which may
fail); `fetchKlines` is `get_kline_data`, whose exceptions are caught per
symbol and rendered as `none`; `now` is `datetime.now()`. -/
structure CurveEnv where
  accountsE : Except String (List AccountRec)
  symbolsE : Except String (List SymKey)
  fetchKlines : SymKey → Option (List KlineBar)
  tradesOfE : ℕ → Except String (List Trade)
  now : ℤ

/-- Step 3 of the batch functions: fetch klines per unique symbol, keeping
only successful, non-empty results, in iteration order. -/
def buildSymbolKlines (env : CurveEnv) (syms : List SymKey) : KlineMap :=
  syms.foldl
    (fun m sm =>
      match env.fetchKlines sm with
      | some ks => if ks.isEmpty then m else m ++ [(sm, ks)]
      | none => m)
    []

/-- A fallback point at `now` valuing an account at its initial capital with
no positions; the reported `cash` field differs between the copies of this
code (`initial_capital` in the calculator, `current_cash` in the routes). -/
def nowFallbackPoint (cash : ℚ) (a : AccountRec) (now : ℤ) : CurvePoint :=
  { timestamp := now, accountId := a.id, totalAssets := a.initialCapital,
    cash := cash, positionsValue := 0 }

/-- Ordering key of the final `result.sort`: `(timestamp, account_id)`. -/
def keyLe (p q : CurvePoint) : Bool :=
  decide (p.timestamp < q.timestamp ∨ (p.timestamp = q.timestamp ∧ p.accountId ≤ q.accountId))

/-- Stable insertion of a point after all points with a key at most its own. -/
def insertPoint (p : CurvePoint) : List CurvePoint → List CurvePoint
  | [] => [p]
  | q :: rest => if keyLe q p then q :: insertPoint p rest else p :: q :: rest

/-- Stable sort by `(timestamp, account_id)` (the final `result.sort`). -/
def sortPoints (l : List CurvePoint) : List CurvePoint :=
  l.foldl (fun acc p => insertPoint p acc) []

/-- The `try` body of `get_all_asset_curves_data_new`
(services/asset_curve_calculator.py): storage reads may fail, in which case
the error propagates to the surrounding `except`. Both no-data fallbacks of
this copy report `cash = initial_capital`. -/
def bodyCurvesNew (env : CurveEnv) : Except String (List CurvePoint) := do
  let accounts ← env.accountsE
  if accounts.isEmpty then return []
  let syms ← env.symbolsE
  if syms.isEmpty then
    return accounts.map (fun a => nowFallbackPoint a.initialCapital a env.now)
  let sk := buildSymbolKlines env syms
  if sk.isEmpty then
    return accounts.map (fun a => nowFallbackPoint a.initialCapital a env.now)
  let timestamps := ((sk.head?.map Prod.snd).getD []).map KlineBar.timestamp
  let curves ← accounts.foldlM
    (fun acc a => do
      let trades ← env.tradesOfE a.id
      pure (acc ++ createAccountTimeline a trades timestamps sk))
    []
  return sortPoints curves

/-- `get_all_asset_curves_data_new` itself: the `except Exception` clause logs
and returns `[]`, so every storage failure becomes an empty normal result. -/
def getAllAssetCurvesDataNew (env : CurveEnv) : List CurvePoint :=
  match bodyCurvesNew env with
  | .ok r => r
  | .error _ => []

/-- The `try` body of `api/ws.get_all_asset_curves_data`: same replay loop,
but both no-data fallbacks report `cash = current_cash` and there is no final
sort. -/
def bodyCurvesWs (env : CurveEnv) : Except String (List CurvePoint) := do
  let accounts ← env.accountsE
  if accounts.isEmpty then return []
  let syms ← env.symbolsE
  if syms.isEmpty then
    return accounts.map (fun a => nowFallbackPoint a.currentCash a env.now)
  let sk := buildSymbolKlines env syms
  if sk.isEmpty then
    return accounts.map (fun a => nowFallbackPoint a.currentCash a env.now)
  let timestamps := ((sk.head?.map Prod.snd).getD []).map KlineBar.timestamp
  let curves ← accounts.foldlM
    (fun acc a => do
      let trades ← env.tradesOfE a.id
      pure (acc ++ createAccountTimeline a trades timestamps sk))
    []
  return curves

/-- `api/ws.get_all_asset_curves_data`: the `except Exception` clause logs and
returns `[]`. -/
def getAllAssetCurvesDataWs (env : CurveEnv) : List CurvePoint :=
  match bodyCurvesWs env with
  | .ok r => r
  | .error _ => []

/-- `api/account_routes.get_asset_curve_by_timeframe`: same pipeline, except
that an empty `symbol_klines` raises `HTTPException(500, "Failed to fetch
market data")`, and HTTP exceptions propagate to the caller. Its no-trade
fallback reports `cash = current_cash`. -/
def getAssetCurveByTimeframe (env : CurveEnv) : Except String (List CurvePoint) := do
  let users ← env.accountsE
  if users.isEmpty then return []
  let syms ← env.symbolsE
  if syms.isEmpty then
    return users.map (fun a => nowFallbackPoint a.currentCash a env.now)
  let sk := buildSymbolKlines env syms
  if sk.isEmpty then throw "Failed to fetch market data"
  let timestamps := ((sk.head?.map Prod.snd).getD []).map KlineBar.timestamp
  let curves ← users.foldlM
    (fun acc a => do
      let trades ← env.tradesOfE a.id
      pure (acc ++ createAccountTimeline a trades timestamps sk))
    []
  return curves

/-- One stored close price (`database.models.CryptoPrice`). -/
structure PriceRec where
  symbol : String
  market : String
  price : ℚ
  priceDate : ℤ
deriving Repr, DecidableEq

/-- `db.query(CryptoPrice).filter(symbol, market, price_date <= d)
.order_by(price_date.desc()).first()` over a row list: the first row carrying
the maximal `price_date` among matches at or before `d`. -/
def latestStep (sym mkt : String) (d : ℤ) (best : Option PriceRec) (p : PriceRec) :
    Option PriceRec :=
  if p.symbol = sym ∧ p.market = mkt ∧ p.priceDate ≤ d then
    match best with
    | none => some p
    | some b => if b.priceDate < p.priceDate then some p else some b
  else best

def latestPriceAtOrBefore (ps : List PriceRec) (sym mkt : String) (d : ℤ) : Option PriceRec :=
  ps.foldl (latestStep sym mkt d) none

/-- `api/account_routes._calculate_cash_changes_up_to_date`: the calendar-curve
cash replay over trades whose calendar date is at or before the target date.
Note this copy adds `price*qty + commission` on SELL. -/
def routeCashChangesUpToDate (trades : List Trade) (targetDate : ℤ) : ℚ :=
  (trades.filter (fun t => decide (dateOfTime t.tradeTime ≤ targetDate))).foldl
    (fun acc t => if t.side = "BUY" then acc - tradeAmount t else acc + tradeAmount t) 0

/-- `api/ws._calculate_cash_changes_up_to_date`: the only copy of the replay
that subtracts the commission on SELL (`+ price*qty - commission`). It has no
callers in the repository. -/
def wsCashChangesUpToDate (trades : List Trade) (targetDate : ℤ) : ℚ :=
  (trades.filter (fun t => decide (dateOfTime t.tradeTime ≤ targetDate))).foldl
    (fun acc t =>
      if t.side = "BUY" then acc - (t.price * t.quantity + t.commission)
      else acc + (t.price * t.quantity - t.commission))
    0

/-- Net-position dict of `api/account_routes._calculate_positions_value_on_date`. -/
def positionsOnDate (trades : List Trade) (d : ℤ) : List (SymKey × ℚ) :=
  (trades.filter (fun t => decide (dateOfTime t.tradeTime ≤ d))).foldl
    (fun m t => assocUpdate m (t.symbol, t.market) (qtyImpact t)) []

/-- Value added to the total for one position entry on a calendar date:
non-positive quantities are skipped; a found price record contributes
`price * quantity`; a missing price contributes nothing (warning logged). -/
def priceContribution (ps : List PriceRec) (d : ℤ) (key : SymKey) (q : ℚ) : ℚ :=
  if q ≤ 0 then 0
  else
    match latestPriceAtOrBefore ps key.1 key.2 d with
    | some pr => pr.price * q
    | none => 0

/-- `api/account_routes._calculate_positions_value_on_date`. -/
def positionsValueOnDate (trades : List Trade) (ps : List PriceRec) (d : ℤ) : ℚ :=
  (positionsOnDate trades d).foldl (fun acc e => acc + priceContribution ps d e.1 e.2) 0

/-- One emitted calendar-curve point of `get_asset_curve`. -/
structure CalPoint where
  date : ℤ
  totalAssets : ℚ
  cash : ℚ
  positionsValue : ℚ
  isInitial : Bool
deriving Repr, DecidableEq

/-- Inputs of the calendar curve route: the user's account fields, the user's
trades in ascending `trade_time` order (the trade-log reader contract), the
distinct dates carrying any stored price, the price store itself, and the
current date. -/
structure CalEnv where
  user : AccountRec
  trades : List Trade
  priceDates : List ℤ
  prices : List PriceRec
  nowDate : ℤ

/-- Sorted insertion without duplicates, embedding the `set` + `sorted` step. -/
def insertDate (d : ℤ) : List ℤ → List ℤ
  | [] => [d]
  | x :: rest =>
    if d < x then d :: x :: rest
    else if d = x then x :: rest
    else x :: insertDate d rest

/-- Sorted deduplicated date axis (`sorted(set(...))`). -/
def sortedDates (l : List ℤ) : List ℤ :=
  l.foldl (fun acc d => insertDate d acc) []

/-- One replayed calendar point: cash from the calendar cash replay, positions
value from the dated valuator, `total = cash + positions_value`. -/
def calReplayPoint (env : CalEnv) (d : ℤ) : CalPoint :=
  let cash := env.user.initialCapital + routeCashChangesUpToDate env.trades d
  let pv := positionsValueOnDate env.trades env.prices d
  { date := d, totalAssets := cash + pv, cash := cash, positionsValue := pv,
    isInitial := false }

/-- `api/account_routes.get_asset_curve`: with no trades, a single point at
today valuing the account at its initial capital but reporting
`cash = current_cash`; otherwise a synthetic leading point at the day before
the first trade followed by one replayed point per relevant date. -/
def getAssetCurve (env : CalEnv) : List CalPoint :=
  match env.trades.head? with
  | none =>
    [{ date := env.nowDate, totalAssets := env.user.initialCapital,
       cash := env.user.currentCash, positionsValue := 0, isInitial := true }]
  | some ft =>
    let ftd := dateOfTime ft.tradeTime
    let startPoint : CalPoint :=
      { date := ftd - 1, totalAssets := env.user.initialCapital,
        cash := env.user.initialCapital, positionsValue := 0, isInitial := true }
    let allDates :=
      sortedDates (env.trades.map (fun t => dateOfTime t.tradeTime) ++ env.priceDates)
    let relevant := allDates.filter (fun d => decide (ftd ≤ d))
    startPoint :: relevant.map (calReplayPoint env)

/-- A position row as read by `calc_positions_value` (`database.models.Position`). -/
structure PositionRec where
  symbol : String
  market : String
  quantity : ℚ
deriving Repr, DecidableEq

/-- `services/asset_calculator.calc_positions_value`: sums `last_price *
quantity` over the stored position rows, skipping rows whose price fetch
raises (`none`). -/
def calcPositionsValue (positions : List PositionRec) (lastPrice : SymKey → Option ℚ) : ℚ :=
  positions.foldl
    (fun acc p =>
      match lastPrice (p.symbol, p.market) with
      | some pr => acc + pr * p.quantity
      | none => acc)
    0

/-- The `total_assets` of the overview assembled by `api/ws._send_snapshot`:
`calc_positions_value(...) + float(account.current_cash)`. -/
def snapshotTotalAssets (a : AccountRec) (positions : List PositionRec)
    (lastPrice : SymKey → Option ℚ) : ℚ :=
  calcPositionsValue positions lastPrice + a.currentCash

/-- Follows the specification's words (not taken from a source function): the
claimed signed cash impact, `-(price*qty + commission)` for BUY and
`+(price*qty - commission)` for SELL. Used to compare the code's replay
against the claimed formula. -/
def specSignedCashImpact (t : Trade) : ℚ :=
  if t.side = "BUY" then -(t.price * t.quantity + t.commission)
  else t.price * t.quantity - t.commission

/-- Follows the specification's words: claimed cash delta at a cutoff, the sum
of the claimed signed impacts over trades with `trade_time <= cutoff`. -/
def specCashDelta (trades : List Trade) (cutoff : ℤ) : ℚ :=
  ((trades.filter (fun t => decide (t.tradeTime ≤ cutoff))).map specSignedCashImpact).sum

/-- The worked example's first trade: BUY 1 BTC at 100 with commission 1. -/
def btcBuy : Trade :=
  { symbol := "BTC", market := "CRYPTO", side := "BUY", price := 100,
    quantity := 1, commission := 1, tradeTime := 86400 }

/-- The worked example's second trade: SELL 1 BTC at 110 with commission 1. -/
def btcSell : Trade :=
  { symbol := "BTC", market := "CRYPTO", side := "SELL", price := 110,
    quantity := 1, commission := 1, tradeTime := 86460 }

/-- The worked example's trade log. -/
def exTrades : List Trade := [btcBuy, btcSell]

/-- An account with initial capital 1000 (the worked example's account). -/
def acct1000 : AccountRec :=
  { id := 1, userId := 1, name := "alice", initialCapital := 1000, currentCash := 1000 }

/-- Whether the kline guard of the valuation loop passes for a key at index
`i`: the key is in `symbol_klines`, the index is in range, and the close at
that index is truthy. -/
def klineUsable (sk : KlineMap) (i : ℕ) (key : SymKey) : Bool :=
  match lookupKlines sk key with
  | some ks =>
    match ks.get? i with
    | some bar => truthyClose bar.close
    | none => false
  | none => false

/-- An account whose live cash (900) has drifted below its initial capital. -/
def acctC2 : AccountRec :=
  { id := 3, userId := 3, name := "carol", initialCapital := 1000, currentCash := 900 }

/-- Calendar-curve inputs for an account with zero trades and drifted cash. -/
def calEnvC2 : CalEnv :=
  { user := acctC2, trades := [], priceDates := [], prices := [], nowDate := 20100 }

/-- Another zero-trade account whose live cash (650) exceeds its capital. -/
def acctDrift : AccountRec :=
  { id := 2, userId := 2, name := "bob", initialCapital := 500, currentCash := 650 }

/-- Calendar-curve inputs for `acctDrift` with zero trades. -/
def calEnvNoTrades : CalEnv :=
  { user := acctDrift, trades := [], priceDates := [], prices := [], nowDate := 30000 }

/-- Calendar-curve inputs with one BUY trade (for exercising replayed points). -/
def calEnvOneTrade : CalEnv :=
  { user := acct1000, trades := [btcBuy], priceDates := [], prices := [], nowDate := 50 }

/-- A stored BTC price of 90 on day 3. -/
def prOld : PriceRec := { symbol := "BTC", market := "CRYPTO", price := 90, priceDate := 3 }

/-- A stored BTC price of 95 on day 5. -/
def prNew : PriceRec := { symbol := "BTC", market := "CRYPTO", price := 95, priceDate := 5 }

/-- A stored BTC price of 99 on day 9 (after the witness cutoff). -/
def prLate : PriceRec := { symbol := "BTC", market := "CRYPTO", price := 99, priceDate := 9 }

/-- A small price store around the witness cutoff day 6. -/
def psEx : List PriceRec := [prOld, prNew, prLate]

/-- Two kline bars: a truthy close at index 0, a missing close at index 1. -/
def barsEx : List KlineBar :=
  [{ timestamp := 10, close := some 100 }, { timestamp := 20, close := none }]

/-- A kline map carrying `barsEx` for BTC only. -/
def skEx : KlineMap := [(("BTC", "CRYPTO"), barsEx)]

/-- Batch-curve inputs whose trade read fails. -/
def failEnv : CurveEnv :=
  { accountsE := .ok [acct1000],
    symbolsE := .ok [("BTC", "CRYPTO")],
    fetchKlines := fun _ => some barsEx,
    tradesOfE := fun _ => .error "trade read failed",
    now := 1234 }

/-- An account with live cash (1500) below its initial capital (2000). -/
def acctDrift2 : AccountRec :=
  { id := 4, userId := 4, name := "dave", initialCapital := 2000, currentCash := 1500 }

/-- Batch-curve inputs where trades exist but every kline fetch fails. -/
def noKlinesEnv : CurveEnv :=
  { accountsE := .ok [acctDrift2],
    symbolsE := .ok [("ETH", "CRYPTO")],
    fetchKlines := fun _ => none,
    tradesOfE := fun _ => .ok [btcBuy],
    now := 999 }

/-! ### Fold and association-list lemmas -/

/-- A fold that adds `f x` under a decidable guard equals the initial value
plus the sum of `f` over the filtered list. -/
theorem foldl_guard_add {α : Type} (p : α → Prop) [DecidablePred p] (f : α → ℚ) :
    ∀ (l : List α) (a : ℚ),
      l.foldl (fun acc x => if p x then acc + f x else acc) a
        = a + ((l.filter (fun x => decide (p x))).map f).sum := by
  intro l
  induction l with
  | nil => intro a; simp
  | cons x xs ih =>
    intro a
    by_cases h : p x
    · rw [List.foldl_cons, if_pos h, ih (a + f x)]
      simp [List.filter_cons, h]
      ring
    · rw [List.foldl_cons, if_neg h, ih a]
      simp [List.filter_cons, h]

/-- An unguarded additive fold equals the initial value plus the sum. -/
theorem foldl_add {α : Type} (f : α → ℚ) :
    ∀ (l : List α) (a : ℚ),
      l.foldl (fun acc x => acc + f x) a = a + (l.map f).sum := by
  intro l
  induction l with
  | nil => intro a; simp
  | cons x xs ih =>
    intro a
    simp only [List.foldl_cons, List.map_cons, List.sum_cons, ih (a + f x)]
    ring

/-- If `g` vanishes outside the filter, summing over the filtered list loses
nothing. -/
theorem sum_map_filter_of_zero {α : Type} (p : α → Bool) (g : α → ℚ) :
    ∀ l : List α, (∀ x ∈ l, p x = false → g x = 0) →
      (l.map g).sum = ((l.filter p).map g).sum := by
  intro l
  induction l with
  | nil => intro _; simp
  | cons x xs ih =>
    intro h
    rcases hx : p x with _ | _
    · have hx0 : g x = 0 := h x (List.mem_cons_self x xs) hx
      simp [List.filter_cons, hx, hx0,
        ih (fun y hy hpy => h y (List.mem_cons_of_mem x hy) hpy)]
    · simp [List.filter_cons, hx,
        ih (fun y hy hpy => h y (List.mem_cons_of_mem x hy) hpy)]

/-- Reading an updated dict: the update adds `d` at exactly the updated key. -/
theorem assocGet_assocUpdate (m : List (SymKey × ℚ)) (k k' : SymKey) (d : ℚ) :
    assocGet (assocUpdate m k d) k' = assocGet m k' + (if k = k' then d else 0) := by
  induction m with
  | nil =>
    by_cases h : k = k' <;> simp [assocUpdate, assocGet, h]
  | cons e rest ih =>
    obtain ⟨a, v⟩ := e
    by_cases hak : a = k
    · subst hak
      by_cases hak2 : a = k'
      · subst hak2
        simp [assocUpdate, assocGet]
      · simp [assocUpdate, assocGet, hak2]
    · have hka : ¬ k = a := fun h => hak h.symm
      by_cases hak2 : a = k'
      · subst hak2
        simp [assocUpdate, assocGet, hak, hka]
      · simp [assocUpdate, assocGet, hak, hak2, ih]

/-- The replay's cash fold is the sum of the signed impacts over the trades at
or before the cutoff. -/
theorem cashChangeAt_eq_sum (trades : List Trade) (cutoff : ℤ) :
    cashChangeAt trades cutoff
      = ((trades.filter (fun t => decide (t.tradeTime ≤ cutoff))).map cashImpact).sum := by
  unfold cashChangeAt
  rw [foldl_guard_add (fun t : Trade => t.tradeTime ≤ cutoff) cashImpact trades 0]
  simp

/-- Accumulator-generalised form: reading any key out of the position fold adds
`netQtyAt` to what the starting dict already held. -/
theorem assocGet_positionsFold (cutoff : ℤ) (key : SymKey) :
    ∀ (trades : List Trade) (m : List (SymKey × ℚ)),
      assocGet
          (trades.foldl
            (fun m t =>
              if t.tradeTime ≤ cutoff then assocUpdate m (t.symbol, t.market) (qtyImpact t)
              else m)
            m)
          key
        = assocGet m key + netQtyAt trades cutoff key := by
  intro trades
  induction trades with
  | nil => intro m; simp [netQtyAt]
  | cons t ts ih =>
    intro m
    by_cases h : t.tradeTime ≤ cutoff
    · rw [List.foldl_cons, if_pos h, ih, assocGet_assocUpdate]
      simp [netQtyAt, List.filter_cons, h]
      ring
    · rw [List.foldl_cons, if_neg h, ih]
      simp [netQtyAt, List.filter_cons, h]

/-- Reading the replay's position dict gives the net signed quantity. -/
theorem assocGet_positionsAt (trades : List Trade) (cutoff : ℤ) (key : SymKey) :
    assocGet (positionsAt trades cutoff) key = netQtyAt trades cutoff key := by
  unfold positionsAt
  rw [assocGet_positionsFold cutoff key trades []]
  simp [assocGet]

/-- The timeframe valuator is the sum of the per-entry contributions. -/
theorem positionsValueAt_eq_sum (posQ : List (SymKey × ℚ)) (sk : KlineMap) (i : ℕ) :
    positionsValueAt posQ sk i
      = (posQ.map (fun e => klineContribution sk i e.1 e.2)).sum := by
  unfold positionsValueAt
  rw [foldl_add (fun e : SymKey × ℚ => klineContribution sk i e.1 e.2) posQ 0]
  simp

/-- The dated valuator is the sum of the per-entry contributions. -/
theorem positionsValueOnDate_eq_sum (trades : List Trade) (ps : List PriceRec) (d : ℤ) :
    positionsValueOnDate trades ps d
      = ((positionsOnDate trades d).map (fun e => priceContribution ps d e.1 e.2)).sum := by
  unfold positionsValueOnDate
  rw [foldl_add (fun e : SymKey × ℚ => priceContribution ps d e.1 e.2) (positionsOnDate trades d) 0]
  simp

/-- What a successful latest-price fold returns: a matching record at or
before the date (unless it was already the start value), the maximum over all
matching records of the scanned list, and at least the start value's date. -/
theorem latestFold_some (sym mkt : String) (d : ℤ) :
    ∀ (ps : List PriceRec) (best : Option PriceRec) (r : PriceRec),
      ps.foldl (latestStep sym mkt d) best = some r →
        ((r ∈ ps ∧ r.symbol = sym ∧ r.market = mkt ∧ r.priceDate ≤ d) ∨ best = some r)
          ∧ (∀ q ∈ ps, q.symbol = sym → q.market = mkt → q.priceDate ≤ d →
              q.priceDate ≤ r.priceDate)
          ∧ (∀ b, best = some b → b.priceDate ≤ r.priceDate) := by
  intro ps
  induction ps with
  | nil =>
    intro best r h
    simp only [List.foldl_nil] at h
    exact ⟨Or.inr h, by simp, fun b hb => by rw [hb] at h; simp_all⟩
  | cons p ps ih =>
    intro best r h
    rw [List.foldl_cons] at h
    obtain ⟨h1, h2, h3⟩ := ih (latestStep sym mkt d best p) r h
    by_cases hm : p.symbol = sym ∧ p.market = mkt ∧ p.priceDate ≤ d
    · have hpd : p.priceDate ≤ r.priceDate := by
        cases hb : best with
        | none =>
          have hs : latestStep sym mkt d best p = some p := by
            simp [latestStep, hm, hb]
          exact h3 p hs
        | some b =>
          by_cases hlt : b.priceDate < p.priceDate
          · have hs : latestStep sym mkt d best p = some p := by
              simp [latestStep, hm, hb, hlt]
            exact h3 p hs
          · have hs : latestStep sym mkt d best p = some b := by
              simp [latestStep, hm, hb, hlt]
            exact le_trans (le_of_not_lt hlt) (h3 b hs)
      refine ⟨?_, ?_, ?_⟩
      · rcases h1 with hin | hbest
        · exact Or.inl ⟨List.mem_cons_of_mem p hin.1, hin.2⟩
        · cases hb : best with
          | none =>
            have hr : p = r := by
              have hs : latestStep sym mkt d best p = some p := by
                simp [latestStep, hm, hb]
              exact Option.some_inj.mp (hs ▸ hbest)
            exact Or.inl ⟨by rw [← hr]; exact List.mem_cons_self p ps, hr ▸ hm⟩
          | some b =>
            by_cases hlt : b.priceDate < p.priceDate
            · have hr : p = r := by
                have hs : latestStep sym mkt d best p = some p := by
                  simp [latestStep, hm, hb, hlt]
                exact Option.some_inj.mp (hs ▸ hbest)
              exact Or.inl ⟨by rw [← hr]; exact List.mem_cons_self p ps, hr ▸ hm⟩
            · have hr : b = r := by
                have hs : latestStep sym mkt d best p = some b := by
                  simp [latestStep, hm, hb, hlt]
                exact Option.some_inj.mp (hs ▸ hbest)
              exact Or.inr (by rw [hr])
      · intro q hq hqs hqm hqd
        rcases List.mem_cons.mp hq with rfl | hq2
        · exact hpd
        · exact h2 q hq2 hqs hqm hqd
      · intro b hb
        by_cases hlt : b.priceDate < p.priceDate
        · exact le_trans (le_of_lt hlt) hpd
        · have hs : latestStep sym mkt d best p = some b := by
            simp [latestStep, hm, hb, hlt]
          exact h3 b hs
    · have hs : latestStep sym mkt d best p = best := by
        simp [latestStep, hm]
      rw [hs] at h1 h3
      refine ⟨?_, ?_, h3⟩
      · rcases h1 with hin | hbest
        · exact Or.inl ⟨List.mem_cons_of_mem p hin.1, hin.2⟩
        · exact Or.inr hbest
      · intro q hq hqs hqm hqd
        rcases List.mem_cons.mp hq with rfl | hq2
        · exact absurd ⟨hqs, hqm, hqd⟩ hm
        · exact h2 q hq2 hqs hqm hqd

/-- A latest-price fold returns `none` only if it started from `none` and no
scanned record matches at or before the date. -/
theorem latestFold_none (sym mkt : String) (d : ℤ) :
    ∀ (ps : List PriceRec) (best : Option PriceRec),
      ps.foldl (latestStep sym mkt d) best = none →
        best = none
          ∧ ∀ q ∈ ps, ¬ (q.symbol = sym ∧ q.market = mkt ∧ q.priceDate ≤ d) := by
  intro ps
  induction ps with
  | nil =>
    intro best h
    simp only [List.foldl_nil] at h
    exact ⟨h, by simp⟩
  | cons p ps ih =>
    intro best h
    rw [List.foldl_cons] at h
    obtain ⟨hstep, hrest⟩ := ih (latestStep sym mkt d best p) h
    by_cases hm : p.symbol = sym ∧ p.market = mkt ∧ p.priceDate ≤ d
    · exfalso
      cases hb : best with
      | none => rw [hb] at hstep; simp [latestStep, hm] at hstep
      | some b =>
        rw [hb] at hstep
        by_cases hlt : b.priceDate < p.priceDate <;>
          simp [latestStep, hm, hlt] at hstep
    · have hs : latestStep sym mkt d best p = best := by
        simp [latestStep, hm]
      rw [hs] at hstep
      refine ⟨hstep, ?_⟩
      intro q hq
      rcases List.mem_cons.mp hq with rfl | hq2
      · exact hm
      · exact hrest q hq2

/-- `latestPriceAtOrBefore` returns the most recent matching stored price at
or before the date. -/
theorem latestPriceAtOrBefore_some (ps : List PriceRec) (sym mkt : String) (d : ℤ)
    (r : PriceRec) (h : latestPriceAtOrBefore ps sym mkt d = some r) :
    r ∈ ps ∧ r.symbol = sym ∧ r.market = mkt ∧ r.priceDate ≤ d
      ∧ ∀ q ∈ ps, q.symbol = sym → q.market = mkt → q.priceDate ≤ d →
          q.priceDate ≤ r.priceDate := by
  obtain ⟨h1, h2, _⟩ := latestFold_some sym mkt d ps none r h
  rcases h1 with hin | hbest
  · exact ⟨hin.1, hin.2.1, hin.2.2.1, hin.2.2.2, h2⟩
  · exact absurd hbest (by simp)

/-- `latestPriceAtOrBefore` returns `none` exactly when no stored price
matches at or before the date. -/
theorem latestPriceAtOrBefore_none (ps : List PriceRec) (sym mkt : String) (d : ℤ)
    (h : latestPriceAtOrBefore ps sym mkt d = none) :
    ∀ q ∈ ps, ¬ (q.symbol = sym ∧ q.market = mkt ∧ q.priceDate ≤ d) :=
  (latestFold_none sym mkt d ps none h).2

/-! ### Claim theorems -/

/-- Claim C9: the per-cutoff replay fold is deterministic and
chunk-insensitive. The one-pass fold equals the sum of the signed cash
impacts over the trades at or before the cutoff; it splits over
concatenation of the trade log; the position dict realises the net signed
quantity per key; and both the cash delta and the net quantities are
invariant under permutation of the trade log. -/
theorem c9_fold_deterministic (trades trades2 extra : List Trade) (cutoff : ℤ)
    (key : SymKey) (hp : List.Perm trades trades2) :
    cashChangeAt trades cutoff
        = ((trades.filter (fun t => decide (t.tradeTime ≤ cutoff))).map cashImpact).sum
      ∧ cashChangeAt (trades ++ extra) cutoff
          = cashChangeAt trades cutoff + cashChangeAt extra cutoff
      ∧ assocGet (positionsAt trades cutoff) key = netQtyAt trades cutoff key
      ∧ cashChangeAt trades cutoff = cashChangeAt trades2 cutoff
      ∧ netQtyAt trades cutoff key = netQtyAt trades2 cutoff key := by
  refine ⟨cashChangeAt_eq_sum trades cutoff, ?_,
    assocGet_positionsAt trades cutoff key, ?_, ?_⟩
  · rw [cashChangeAt_eq_sum, cashChangeAt_eq_sum, cashChangeAt_eq_sum,
      List.filter_append, List.map_append, List.sum_append]
  · rw [cashChangeAt_eq_sum, cashChangeAt_eq_sum]
    exact ((hp.filter _).map _).sum_eq
  · unfold netQtyAt
    exact ((hp.filter _).map _).sum_eq

/-- Witness for C9 at the worked example's two trades and their swap. -/
theorem c9_fold_deterministic_witness :
    List.Perm exTrades [btcSell, btcBuy]
      ∧ (cashChangeAt exTrades 86460
            = ((exTrades.filter (fun t => decide (t.tradeTime ≤ 86460))).map cashImpact).sum
          ∧ cashChangeAt (exTrades ++ []) 86460
              = cashChangeAt exTrades 86460 + cashChangeAt [] 86460
          ∧ assocGet (positionsAt exTrades 86460) ("BTC", "CRYPTO")
              = netQtyAt exTrades 86460 ("BTC", "CRYPTO")
          ∧ cashChangeAt exTrades 86460 = cashChangeAt [btcSell, btcBuy] 86460
          ∧ netQtyAt exTrades 86460 ("BTC", "CRYPTO")
              = netQtyAt [btcSell, btcBuy] 86460 ("BTC", "CRYPTO")) :=
  ⟨List.Perm.swap btcSell btcBuy [],
    c9_fold_deterministic exTrades [btcSell, btcBuy] [] 86460 ("BTC", "CRYPTO")
      (List.Perm.swap btcSell btcBuy [])⟩

/-- Claim C1 counterexample: on the spec's worked example (BUY 1 BTC at 100
commission 1, SELL 1 BTC at 110 commission 1, initial capital 1000) the
replay loop of `_create_account_timeline` adds the commission on SELL, so
the replayed cash delta is 10, not the claimed 8, and the replayed cash and
total assets come to 1010, not 1008. -/
theorem c1_counterexample :
    cashChangeAt exTrades 86460 = 10
      ∧ specCashDelta exTrades 86460 = 8
      ∧ (timelinePoint acct1000 exTrades [] 0 86460).cash = 1010
      ∧ (timelinePoint acct1000 exTrades [] 0 86460).totalAssets = 1010
      ∧ cashChangeAt exTrades 86460 ≠ specCashDelta exTrades 86460 := by
  norm_num +decide [cashChangeAt, specCashDelta, timelinePoint, positionsValueAt,
    positionsAt, acct1000, exTrades, btcBuy, btcSell, cashImpact, tradeAmount,
    specSignedCashImpact, qtyImpact, assocUpdate, klineContribution, lookupKlines]

/-- Claim C1 (amended): the claimed signed-cash-impact formula (SELL
contributing `+(price*qty - commission)`) is realised only by the uncalled
helper `ws._calculate_cash_changes_up_to_date`; the live replay loops
(`_create_account_timeline` and the calendar helper in `account_routes`) add
the commission on SELL. On the worked example the ws helper yields 8 while
the live replays yield a cash delta of 10 and total assets 1010; the net BTC
quantity and positions value are 0 as claimed. -/
theorem c1_cash_replay_amended (trades : List Trade) (d : ℤ) :
    wsCashChangesUpToDate trades d
        = ((trades.filter (fun t => decide (dateOfTime t.tradeTime ≤ d))).map
            specSignedCashImpact).sum
      ∧ routeCashChangesUpToDate trades d
          = ((trades.filter (fun t => decide (dateOfTime t.tradeTime ≤ d))).map
              cashImpact).sum
      ∧ cashChangeAt exTrades 86460 = 10
      ∧ wsCashChangesUpToDate exTrades 1 = 8
      ∧ routeCashChangesUpToDate exTrades 1 = 10
      ∧ netQtyAt exTrades 86460 ("BTC", "CRYPTO") = 0
      ∧ (timelinePoint acct1000 exTrades [] 0 86460).positionsValue = 0
      ∧ (timelinePoint acct1000 exTrades [] 0 86460).totalAssets = 1010 := by
  refine ⟨?_, ?_, ?_⟩
  · unfold wsCashChangesUpToDate
    have hstep : (fun (acc : ℚ) (t : Trade) =>
        if t.side = "BUY" then acc - (t.price * t.quantity + t.commission)
        else acc + (t.price * t.quantity - t.commission))
        = fun acc t => acc + specSignedCashImpact t := by
      funext acc t
      by_cases h : t.side = "BUY" <;> simp [specSignedCashImpact, h] <;> ring
    rw [hstep, foldl_add]
    simp
  · unfold routeCashChangesUpToDate
    have hstep : (fun (acc : ℚ) (t : Trade) =>
        if t.side = "BUY" then acc - tradeAmount t else acc + tradeAmount t)
        = fun acc t => acc + cashImpact t := by
      funext acc t
      by_cases h : t.side = "BUY" <;> simp [cashImpact, h] <;> ring
    rw [hstep, foldl_add]
    simp
  · norm_num +decide [cashChangeAt, wsCashChangesUpToDate, routeCashChangesUpToDate,
      timelinePoint, positionsValueAt, positionsAt, netQtyAt, acct1000, exTrades,
      btcBuy, btcSell, cashImpact, tradeAmount, specSignedCashImpact, qtyImpact,
      assocUpdate, klineContribution, lookupKlines, dateOfTime, secondsPerDay]

/-- Claim C6: for an account whose first trade is on date D, the calendar
curve's first entry is dated D - 1, is the marked initial point, and values
the account at exactly its initial capital, with cash equal to the initial
capital and zero positions value. -/
theorem c6_leading_point (u : AccountRec) (t : Trade) (rest : List Trade)
    (pd : List ℤ) (ps : List PriceRec) (n : ℤ) :
    (getAssetCurve
        { user := u, trades := t :: rest, priceDates := pd, prices := ps, nowDate := n }).head?
      = some { date := dateOfTime t.tradeTime - 1, totalAssets := u.initialCapital,
               cash := u.initialCapital, positionsValue := 0, isInitial := true } := by
  simp [getAssetCurve]

/-- Claim C5 counterexample: the calendar route's zero-trade fallback point
reports `cash = current_cash` (here 650), not the claimed
`cash = initial_capital` (here 500). -/
theorem c5_counterexample :
    getAssetCurve calEnvNoTrades
        = [{ date := 30000, totalAssets := 500, cash := 650, positionsValue := 0,
             isInitial := true }]
      ∧ (650 : ℚ) ≠ 500 := by
  refine ⟨?_, by norm_num⟩
  norm_num +decide [getAssetCurve, calEnvNoTrades, acctDrift]

/-- Claim C5 (amended): an account with zero trades replays to a zero cash
delta and an empty position dict in every copy of the fold, and the timeline
builder's fallback points value it at the initial capital with
`cash = initial_capital`; the calendar route's zero-trade fallback also
reports `total_assets = initial_capital` with zero positions value, but its
`cash` field is the live `current_cash`, not the initial capital. -/
theorem c5_zero_trades_amended (c d n : ℤ) (a u : AccountRec) (timestamps : List ℤ)
    (sk : KlineMap) (pd : List ℤ) (ps : List PriceRec) :
    cashChangeAt [] c = 0
      ∧ positionsAt [] c = []
      ∧ routeCashChangesUpToDate [] d = 0
      ∧ positionsOnDate [] d = []
      ∧ wsCashChangesUpToDate [] d = 0
      ∧ createAccountTimeline a [] timestamps sk = timestamps.map (noTradePoint a)
      ∧ (∀ ts, (noTradePoint a ts).totalAssets = a.initialCapital
          ∧ (noTradePoint a ts).cash = a.initialCapital
          ∧ (noTradePoint a ts).positionsValue = 0)
      ∧ getAssetCurve { user := u, trades := [], priceDates := pd, prices := ps, nowDate := n }
          = [{ date := n, totalAssets := u.initialCapital, cash := u.currentCash,
               positionsValue := 0, isInitial := true }] := by
  refine ⟨rfl, rfl, rfl, rfl, rfl, ?_, fun ts => ⟨rfl, rfl, rfl⟩, rfl⟩
  simp [createAccountTimeline]

/-- Claim C4: at every cutoff, only entries with strictly positive net
quantity contribute `price * quantity` to the positions value: both the
dated valuator and the timeframe valuator are unchanged by discarding the
non-positive entries, and the quantity the dict holds per key is exactly the
net signed quantity of the trades at or before the cutoff. -/
theorem c4_positive_only (trades : List Trade) (ps : List PriceRec) (d : ℤ)
    (posQ : List (SymKey × ℚ)) (sk : KlineMap) (i : ℕ) (c : ℤ) (key : SymKey) :
    positionsValueOnDate trades ps d
        = (((positionsOnDate trades d).filter (fun e => decide (0 < e.2))).map
            (fun e => priceContribution ps d e.1 e.2)).sum
      ∧ positionsValueAt posQ sk i
          = ((posQ.filter (fun e => decide (0 < e.2))).map
              (fun e => klineContribution sk i e.1 e.2)).sum
      ∧ assocGet (positionsAt trades c) key = netQtyAt trades c key := by
  refine ⟨?_, ?_, assocGet_positionsAt trades c key⟩
  · rw [positionsValueOnDate_eq_sum]
    apply sum_map_filter_of_zero
    intro e _ hpe
    have hne : ¬ (0 < e.2) := of_decide_eq_false hpe
    simp [priceContribution, le_of_not_lt hne]
  · rw [positionsValueAt_eq_sum]
    apply sum_map_filter_of_zero
    intro e _ hpe
    have hne : ¬ (0 < e.2) := of_decide_eq_false hpe
    simp [klineContribution, hne]

/-- Claim C3: the dated valuator sums one contribution per held entry; a
positively-held key with a stored price is priced at the most recent price
record at or before the cutoff; a key with no such record contributes zero
(the symbol is skipped with a warning) and the computation still returns a
total. -/
theorem c3_valuator_latest_price (trades : List Trade) (ps : List PriceRec) (d : ℤ) :
    positionsValueOnDate trades ps d
        = ((positionsOnDate trades d).map (fun e => priceContribution ps d e.1 e.2)).sum
      ∧ (∀ (key : SymKey) (q : ℚ) (r : PriceRec), 0 < q →
           latestPriceAtOrBefore ps key.1 key.2 d = some r →
             priceContribution ps d key q = r.price * q
               ∧ r ∈ ps ∧ r.symbol = key.1 ∧ r.market = key.2 ∧ r.priceDate ≤ d
               ∧ ∀ p2 ∈ ps, p2.symbol = key.1 → p2.market = key.2 → p2.priceDate ≤ d →
                   p2.priceDate ≤ r.priceDate)
      ∧ (∀ (key : SymKey) (q : ℚ), latestPriceAtOrBefore ps key.1 key.2 d = none →
           priceContribution ps d key q = 0
             ∧ ∀ p2 ∈ ps, ¬ (p2.symbol = key.1 ∧ p2.market = key.2 ∧ p2.priceDate ≤ d)) := by
  refine ⟨positionsValueOnDate_eq_sum trades ps d, ?_, ?_⟩
  · intro key q r hq hr
    obtain ⟨hin, hs, hm, hd, hmax⟩ := latestPriceAtOrBefore_some ps key.1 key.2 d r hr
    exact ⟨by simp [priceContribution, not_le_of_lt hq, hr], hin, hs, hm, hd, hmax⟩
  · intro key q hn
    refine ⟨?_, latestPriceAtOrBefore_none ps key.1 key.2 d hn⟩
    by_cases hq : q ≤ 0
    · simp [priceContribution, hq]
    · simp [priceContribution, hq, hn]

/-- Witness for C3: at cutoff day 6 the store `psEx` prices BTC at the day-5
record (the day-9 record is in the future), so 2 BTC contribute 190, and the
day-3 record is indeed no newer than the chosen one. -/
theorem c3_valuator_latest_price_witness :
    priceContribution psEx 6 ("BTC", "CRYPTO") 2 = 190
      ∧ prOld.priceDate ≤ prNew.priceDate := by
  have h := (c3_valuator_latest_price [] psEx 6).2.1 ("BTC", "CRYPTO") 2 prNew
    (by norm_num)
    (by norm_num +decide [latestPriceAtOrBefore, latestStep, psEx, prOld, prNew, prLate])
  exact ⟨by rw [h.1]; norm_num [prNew],
    h.2.2.2.2.2 prOld (by simp [psEx]) rfl rfl (by norm_num [prOld])⟩

/-- Unfolding `klineUsable` once the kline list of the key is known. -/
theorem klineUsable_of_lookup (sk : KlineMap) (i : ℕ) (key : SymKey)
    (ks : List KlineBar) (hl : lookupKlines sk key = some ks) :
    klineUsable sk i key
      = match ks.get? i with
        | some bar => truthyClose bar.close
        | none => false := by
  unfold klineUsable
  rw [hl]

/-- Unfolding `klineContribution` for a positive quantity with a known kline
list. -/
theorem klineContribution_pos_some (sk : KlineMap) (i : ℕ) (key : SymKey)
    (q : ℚ) (ks : List KlineBar) (hq : 0 < q)
    (hl : lookupKlines sk key = some ks) :
    klineContribution sk i key q
      = match ks.get? i with
        | some bar => if truthyClose bar.close then bar.close.getD 0 * q else 0
        | none => 0 := by
  unfold klineContribution
  rw [if_pos hq, hl]

/-- The kline contribution vanishes whenever the guard fails. -/
theorem klineContribution_eq_zero_of_not_usable (sk : KlineMap) (i : ℕ)
    (key : SymKey) (q : ℚ) (h : klineUsable sk i key = false) :
    klineContribution sk i key q = 0 := by
  by_cases hq : 0 < q
  · cases hl : lookupKlines sk key with
    | none => unfold klineContribution; rw [if_pos hq, hl]
    | some ks =>
      rw [klineUsable_of_lookup sk i key ks hl] at h
      rw [klineContribution_pos_some sk i key q ks hq hl]
      cases hg : ks.get? i with
      | none => rfl
      | some bar =>
        rw [hg] at h
        have h2 : truthyClose bar.close = false := h
        simp only [h2, Bool.false_eq_true, if_false]
  · unfold klineContribution
    rw [if_neg hq]

/-- Claim C10: in the timeframe valuation, a kline list is read at index `i`
only under the guard `i < len(klines)` with a truthy close; entries whose
kline series is missing, too short, or has no usable close at `i` contribute
zero and can be discarded without changing the positions value, and the
computation is total (no out-of-range access can occur). -/
theorem c10_kline_guard (posQ : List (SymKey × ℚ)) (sk : KlineMap) (i : ℕ)
    (key : SymKey) (q : ℚ) :
    positionsValueAt posQ sk i
        = positionsValueAt
            (posQ.filter (fun e => decide (0 < e.2) && klineUsable sk i e.1)) sk i
      ∧ (klineUsable sk i key = true →
           ∃ ks bar, lookupKlines sk key = some ks ∧ i < ks.length
             ∧ ks.get? i = some bar ∧ bar.close ≠ none ∧ bar.close ≠ some 0
             ∧ (0 < q → klineContribution sk i key q = bar.close.getD 0 * q))
      ∧ (lookupKlines sk key = none → klineContribution sk i key q = 0)
      ∧ (∀ ks, lookupKlines sk key = some ks → ks.length ≤ i →
           klineContribution sk i key q = 0)
      ∧ (∀ ks bar, lookupKlines sk key = some ks → ks.get? i = some bar →
           truthyClose bar.close = false → klineContribution sk i key q = 0) := by
  refine ⟨?_, ?_, ?_, ?_, ?_⟩
  · rw [positionsValueAt_eq_sum, positionsValueAt_eq_sum]
    apply sum_map_filter_of_zero
    intro e _ hpe
    rcases Bool.and_eq_false_iff.mp hpe with hq0 | hu
    · have hne : ¬ (0 < e.2) := of_decide_eq_false hq0
      simp [klineContribution, hne]
    · exact klineContribution_eq_zero_of_not_usable sk i e.1 e.2 hu
  · intro hu
    cases hl : lookupKlines sk key with
    | none => rw [klineUsable] at hu; rw [hl] at hu; exact absurd hu (by simp)
    | some ks =>
      rw [klineUsable_of_lookup sk i key ks hl] at hu
      cases hg : ks.get? i with
      | none => rw [hg] at hu; exact absurd hu (by simp)
      | some bar =>
        rw [hg] at hu
        have hu2 : truthyClose bar.close = true := hu
        have hlt : i < ks.length := by
          by_contra hge
          rw [List.get?_eq_none.mpr (le_of_not_lt hge)] at hg
          exact Option.noConfusion hg
        cases hc : bar.close with
        | none => rw [hc] at hu2; exact absurd hu2 (by simp [truthyClose])
        | some p =>
          rw [hc] at hu2
          have hp0 : p ≠ 0 := by simpa [truthyClose] using hu2
          refine ⟨ks, bar, rfl, hlt, hg, by simp [hc], by simp [hc, hp0], ?_⟩
          intro hq
          rw [klineContribution_pos_some sk i key q ks hq hl, hg]
          simp [truthyClose, hc, hp0]
  · intro hl
    by_cases hq : 0 < q
    · unfold klineContribution; rw [if_pos hq, hl]
    · unfold klineContribution; rw [if_neg hq]
  · intro ks hl hlen
    by_cases hq : 0 < q
    · rw [klineContribution_pos_some sk i key q ks hq hl,
        List.get?_eq_none.mpr hlen]
    · unfold klineContribution; rw [if_neg hq]
  · intro ks bar hl hg ht
    by_cases hq : 0 < q
    · rw [klineContribution_pos_some sk i key q ks hq hl, hg]
      simp only [ht, Bool.false_eq_true, if_false]
    · unfold klineContribution; rw [if_neg hq]

/-- Witness for C10: in `skEx` the close at index 1 is missing, so 3 BTC
contribute nothing there, and the filter identity holds at index 0. -/
theorem c10_kline_guard_witness :
    klineContribution skEx 1 ("BTC", "CRYPTO") 3 = 0
      ∧ positionsValueAt [(("BTC", "CRYPTO"), 3)] skEx 0
          = positionsValueAt
              (([(("BTC", "CRYPTO"), 3)] : List (SymKey × ℚ)).filter
                (fun e => decide (0 < e.2) && klineUsable skEx 0 e.1)) skEx 0 :=
  ⟨(c10_kline_guard [] skEx 1 ("BTC", "CRYPTO") 3).2.2.2.2 barsEx
      { timestamp := 20, close := none } rfl rfl rfl,
    (c10_kline_guard [(("BTC", "CRYPTO"), 3)] skEx 0 ("BTC", "CRYPTO") 3).1⟩

/-- Claim C2 counterexample: the calendar route's zero-trade fallback emits a
point with `total_assets = 1000` but `cash = 900` and zero positions value,
so the claimed decomposition `total_assets = cash + positions_value` fails on
an emitted point. -/
theorem c2_counterexample :
    getAssetCurve calEnvC2
        = [{ date := 20100, totalAssets := 1000, cash := 900, positionsValue := 0,
             isInitial := true }]
      ∧ ¬ ((1000 : ℚ) = 900 + 0) := by
  refine ⟨?_, by norm_num⟩
  norm_num +decide [getAssetCurve, calEnvC2, acctC2]

/-- Claim C2 (amended): every replayed calendar point decomposes as
`total_assets = cash + positions_value` with
`cash = initial_capital + cash_delta`; the synthetic leading point and every
timeframe point also satisfy the decomposition, as does the snapshot
overview (`total_assets = positions_value + current_cash`); but the calendar
route's zero-trade fallback pairs `total_assets = initial_capital` with
`cash = current_cash`, so its decomposition holds only when the live cash
equals the initial capital. -/
theorem c2_decomposition_amended (env : CalEnv) (a : AccountRec) (trades : List Trade)
    (sk : KlineMap) (i : ℕ) (ts : ℤ) (positions : List PositionRec)
    (lastPrice : SymKey → Option ℚ) :
    (∀ p ∈ getAssetCurve env, p.isInitial = false →
        p.totalAssets = p.cash + p.positionsValue
          ∧ p.cash = env.user.initialCapital + routeCashChangesUpToDate env.trades p.date
          ∧ p.positionsValue = positionsValueOnDate env.trades env.prices p.date)
      ∧ (∀ p ∈ getAssetCurve env, p.isInitial = true → env.trades ≠ [] →
          p.totalAssets = p.cash + p.positionsValue)
      ∧ (timelinePoint a trades sk i ts).totalAssets
          = (timelinePoint a trades sk i ts).cash
              + (timelinePoint a trades sk i ts).positionsValue
      ∧ snapshotTotalAssets a positions lastPrice
          = calcPositionsValue positions lastPrice + a.currentCash
      ∧ (env.trades = [] →
          getAssetCurve env
            = [{ date := env.nowDate, totalAssets := env.user.initialCapital,
                 cash := env.user.currentCash, positionsValue := 0,
                 isInitial := true }]) := by
  rcases htr : env.trades with _ | ⟨t, rest⟩
  · have hcurve : getAssetCurve env
        = [{ date := env.nowDate, totalAssets := env.user.initialCapital,
             cash := env.user.currentCash, positionsValue := 0, isInitial := true }] := by
      unfold getAssetCurve
      rw [htr]
      rfl
    refine ⟨?_, ?_, rfl, rfl, fun _ => hcurve⟩
    · intro p hp hfalse
      rw [hcurve] at hp
      simp only [List.mem_singleton] at hp
      rw [hp] at hfalse
      exact absurd hfalse (by simp)
    · intro p hp _ hne
      exact absurd rfl hne
  · have hcurve : getAssetCurve env
        = { date := dateOfTime t.tradeTime - 1, totalAssets := env.user.initialCapital,
            cash := env.user.initialCapital, positionsValue := 0, isInitial := true }
          :: ((sortedDates (env.trades.map (fun t => dateOfTime t.tradeTime)
                ++ env.priceDates)).filter
              (fun d => decide (dateOfTime t.tradeTime ≤ d))).map (calReplayPoint env) := by
      unfold getAssetCurve
      rw [htr]
      rfl
    refine ⟨?_, ?_, rfl, rfl, ?_⟩
    · intro p hp hfalse
      rw [hcurve] at hp
      rcases List.mem_cons.mp hp with hstart | hmem
      · rw [hstart] at hfalse
        exact absurd hfalse (by simp)
      · obtain ⟨d, _, hpd⟩ := List.mem_map.mp hmem
        rw [← hpd]
        simp [calReplayPoint, htr]
    · intro p hp hinit _
      rw [hcurve] at hp
      rcases List.mem_cons.mp hp with hstart | hmem
      · rw [hstart]
        simp
      · obtain ⟨d, _, hpd⟩ := List.mem_map.mp hmem
        rw [← hpd] at hinit
        exact absurd hinit (by simp [calReplayPoint])
    · intro hnil
      exact absurd hnil (by simp)

/-- Witness for C2 at a concrete zero-trade environment with drifted cash. -/
theorem c2_decomposition_amended_witness :
    getAssetCurve calEnvC2
      = [{ date := calEnvC2.nowDate, totalAssets := calEnvC2.user.initialCapital,
           cash := calEnvC2.user.currentCash, positionsValue := 0, isInitial := true }] :=
  (c2_decomposition_amended calEnvC2 acct1000 [] [] 0 0 [] (fun _ => none)).2.2.2.2 rfl

/-- Claim C7 counterexample: a failing trade read inside the batch curve
computation is not propagated - both batch functions catch the error and
return the normal empty list, indistinguishable from data-free success. -/
theorem c7_counterexample :
    bodyCurvesNew failEnv = .error "trade read failed"
      ∧ getAllAssetCurvesDataNew failEnv = []
      ∧ bodyCurvesWs failEnv = .error "trade read failed"
      ∧ getAllAssetCurvesDataWs failEnv = [] := by
  refine ⟨?_, ?_, ?_, ?_⟩ <;> rfl

/-- Claim C7 (amended): storage failures inside the batch curve bodies are
caught and converted into an empty normal result rather than propagated to
the caller. -/
theorem c7_error_swallowed_amended (env : CurveEnv) (e : String)
    (h1 : bodyCurvesNew env = .error e) :
    getAllAssetCurvesDataNew env = []
      ∧ (bodyCurvesWs env = .error e → getAllAssetCurvesDataWs env = []) := by
  constructor
  · unfold getAllAssetCurvesDataNew
    rw [h1]
  · intro h2
    unfold getAllAssetCurvesDataWs
    rw [h2]

/-- Witness for C7 at the concrete failing environment. -/
theorem c7_error_swallowed_amended_witness :
    getAllAssetCurvesDataNew failEnv = []
      ∧ (bodyCurvesWs failEnv = .error "trade read failed"
          → getAllAssetCurvesDataWs failEnv = []) :=
  c7_error_swallowed_amended failEnv "trade read failed" rfl

/-- Claim C8 counterexample: with trades present but no kline data, the
timeframe HTTP route fails with a service error instead of reporting every
account at "now", and the calculator batch's fallback reports
`cash = initial_capital` (2000), not the live `current_cash` (1500). -/
theorem c8_counterexample :
    getAssetCurveByTimeframe noKlinesEnv = .error "Failed to fetch market data"
      ∧ getAllAssetCurvesDataNew noKlinesEnv
          = [{ timestamp := 999, accountId := 4, totalAssets := 2000, cash := 2000,
               positionsValue := 0 }]
      ∧ acctDrift2.currentCash ≠ (2000 : ℚ) := by
  refine ⟨rfl, rfl, by norm_num [acctDrift2]⟩

/-- Claim C8 (amended): when trades exist but the kline fetch yields no bars
for any symbol, the ws batch computation reports every account once at "now"
with its live `current_cash` and zero positions value; the calculator batch
does the same but reports `cash = initial_capital`; and the timeframe HTTP
route instead fails with a market-data service error. -/
theorem c8_no_klines_amended (env : CurveEnv) (a0 : AccountRec) (accs : List AccountRec)
    (s0 : SymKey) (syms : List SymKey)
    (hacc : env.accountsE = .ok (a0 :: accs))
    (hsym : env.symbolsE = .ok (s0 :: syms))
    (hsk : buildSymbolKlines env (s0 :: syms) = []) :
    getAllAssetCurvesDataWs env
        = (a0 :: accs).map (fun a => nowFallbackPoint a.currentCash a env.now)
      ∧ getAllAssetCurvesDataNew env
          = (a0 :: accs).map (fun a => nowFallbackPoint a.initialCapital a env.now)
      ∧ getAssetCurveByTimeframe env = .error "Failed to fetch market data" := by
  refine ⟨?_, ?_, ?_⟩
  · unfold getAllAssetCurvesDataWs bodyCurvesWs
    rw [hacc, hsym]
    simp only [bind, Except.bind, List.isEmpty_cons, Bool.false_eq_true, if_false,
      hsk, List.isEmpty_nil, if_true, pure, Except.pure]
  · unfold getAllAssetCurvesDataNew bodyCurvesNew
    rw [hacc, hsym]
    simp only [bind, Except.bind, List.isEmpty_cons, Bool.false_eq_true, if_false,
      hsk, List.isEmpty_nil, if_true, pure, Except.pure]
  · unfold getAssetCurveByTimeframe
    rw [hacc, hsym]
    simp only [bind, Except.bind, List.isEmpty_cons, Bool.false_eq_true, if_false,
      hsk, List.isEmpty_nil, if_true, pure, Except.pure, throw, throwThe,
      MonadExceptOf.throw]

/-- Witness for C8 at the concrete kline-free environment. -/
theorem c8_no_klines_amended_witness :
    getAllAssetCurvesDataWs noKlinesEnv
        = [nowFallbackPoint acctDrift2.currentCash acctDrift2 noKlinesEnv.now]
      ∧ getAllAssetCurvesDataNew noKlinesEnv
          = [nowFallbackPoint acctDrift2.initialCapital acctDrift2 noKlinesEnv.now]
      ∧ getAssetCurveByTimeframe noKlinesEnv = .error "Failed to fetch market data" :=
  c8_no_klines_amended noKlinesEnv acctDrift2 [] ("ETH", "CRYPTO") [] rfl rfl rfl

end Arena
